import Mathlib

/-!
Verification development for the youtrack-mcp HTTP client runtime
(`src/client.ts`, `src/errors.ts`, `src/warmup.ts`).

The TypeScript source is shallowly embedded: pure functions become Lean
functions; the stateful client (TTL cache, consecutive-failure counter)
becomes explicit state passing; the asynchronous retry loop becomes a
function over an "attempt script" (the outcome of each network attempt)
and a "signal poll" function (the value of `signal.aborted` at each of
the points where the code reads it).  JavaScript runtime values are
modelled with `Nat`/`Int`/`String`/`Option`.
-/

namespace YouTrack

-- ════════════════════════════════════════════════════════════════════
-- §1  errors.ts
-- ════════════════════════════════════════════════════════════════════

/-- `TRANSIENT_STATUSES` from errors.ts:
`new Set([408, 425, 429, 500, 502, 503, 504])`. -/
def TRANSIENT_STATUSES : List Nat := [408, 425, 429, 500, 502, 503, 504]

/-- `isTransientStatus(status)` from errors.ts: membership in
`TRANSIENT_STATUSES`. -/
def isTransientStatus (status : Nat) : Bool :=
  TRANSIENT_STATUSES.contains status

/-- The `YouTrackError` class from errors.ts: message, optional HTTP
status code, transience flag, number of retries already performed
(constructor default 0), and optional Retry-After hint in milliseconds
(constructor default `undefined`). -/
structure YouTrackError where
  message : String
  statusCode : Option Nat
  isTransient : Bool
  retryCount : Nat
  retryAfterMs : Option Nat
  deriving DecidableEq, Repr

/-- A JavaScript exception as seen by the retry engine: either a
`YouTrackError` instance or some other thrown value (`instanceof`
test distinguishes the two). -/
inductive JsErr where
  | yt (e : YouTrackError)
  | other (message : String)
  deriving DecidableEq, Repr

/-- `err instanceof YouTrackError && err.isTransient` — the transience
test performed by `fetchWithRetry`. -/
def JsErr.isTransientYt : JsErr → Bool
  | .yt e => e.isTransient
  | .other _ => false

-- ════════════════════════════════════════════════════════════════════
-- §2  client.ts — TTLCache
-- ════════════════════════════════════════════════════════════════════

/-- The backing `Map<string, { value, exp }>` of `TTLCache`, as an
association list in insertion order (a JS `Map` iterates in insertion
order; `set` on an existing key updates the value in place). Values are
modelled as `Nat` payloads. -/
abbrev Store : Type := List (String × Nat × Nat)

/-- `Map.get`: the entry for `k`, if present. -/
def storeFind (store : Store) (k : String) : Option (Nat × Nat) :=
  (List.find? (fun p => p.1 = k) store).map (fun p => p.2)

/-- `Map.set`: replace the value in place if the key is present,
otherwise append at the end (insertion order). -/
def storeSet (store : Store) (k : String) (e : Nat × Nat) : Store :=
  match store with
  | [] => [(k, e)]
  | (k₁, e₁) :: rest =>
    if k₁ = k then (k, e) :: rest else (k₁, e₁) :: storeSet rest k e

/-- `Map.delete`. -/
def storeDelete (store : Store) (k : String) : Store :=
  List.filter (fun p => ¬ p.1 = k) store

/-- `TTLCache.get` from client.ts: missing key → `undefined`; expired
entry (`Date.now() > entry.exp`) → delete it and return `undefined`;
otherwise return the value.  Returns the possibly-updated store
alongside the result.  `now` is the current `Date.now()`. -/
def TTLCache.get (now : Nat) (store : Store) (k : String) : Option Nat × Store :=
  match storeFind store k with
  | none => (none, store)
  | some (v, exp) => if now > exp then (none, storeDelete store k) else (some v, store)

/-- `TTLCache.set` from client.ts:
`this.store.set(key, { value, exp: Date.now() + ttlMs })`.
Note: the source performs no capacity check and no eviction. -/
def TTLCache.set (now : Nat) (store : Store) (k : String) (v : Nat) (ttlMs : Nat) : Store :=
  storeSet store k (v, now + ttlMs)

-- ════════════════════════════════════════════════════════════════════
-- §3  client.ts — buildUrl (cache key construction)
-- ════════════════════════════════════════════════════════════════════

/-- A query parameter value
(`type Params = Record<string, string | number | boolean>`). -/
inductive ParamValue where
  | str (s : String)
  | num (n : Int)
  | boolean (b : Bool)
  deriving DecidableEq, Repr

/-- JavaScript `String(v)` coercion applied by `buildUrl`
(`url.searchParams.set(k, String(v))`). -/
def ParamValue.toJs : ParamValue → String
  | .str s => s
  | .num n => toString n
  | .boolean b => if b then "true" else "false"

/-- Uppercase hex digit, for percent-escapes (WHATWG serializers emit
uppercase hex). -/
def hexDigit (n : Nat) : Char :=
  if n < 10 then Char.ofNat (0x30 + n) else Char.ofNat (0x41 + (n - 10))

/-- Bytes kept verbatim by the `application/x-www-form-urlencoded`
serializer used by `URLSearchParams.toString()`: ASCII alphanumerics
and `*`, `-`, `.`, `_`. -/
def isUnreservedByte (b : Nat) : Bool :=
  (0x30 ≤ b && b ≤ 0x39) || (0x41 ≤ b && b ≤ 0x5A) || (0x61 ≤ b && b ≤ 0x7A) ||
  b = 0x2A || b = 0x2D || b = 0x2E || b = 0x5F

/-- One byte of form-urlencoded output: unreserved bytes verbatim,
space → `+`, everything else percent-escaped. -/
def encodeByte (b : Nat) : List Char :=
  if isUnreservedByte b then [Char.ofNat b]
  else if b = 0x20 then ['+']
  else ['%', hexDigit (b / 16 % 16), hexDigit (b % 16)]

/-- UTF-8 encoding of one code point (the serializer operates on the
UTF-8 bytes of the string). -/
def utf8Bytes (c : Char) : List Nat :=
  let n := c.toNat
  if n < 0x80 then [n]
  else if n < 0x800 then [0xC0 + n / 0x40, 0x80 + n % 0x40]
  else if n < 0x10000 then [0xE0 + n / 0x1000, 0x80 + n / 0x40 % 0x40, 0x80 + n % 0x40]
  else [0xF0 + n / 0x40000, 0x80 + n / 0x1000 % 0x40, 0x80 + n / 0x40 % 0x40, 0x80 + n % 0x40]

/-- form-urlencoded encoding of a whole string. -/
def formEncode (s : String) : String :=
  String.mk ((s.data.flatMap utf8Bytes).flatMap encodeByte)

/-- One `name=value` unit of `URLSearchParams.toString()`. -/
def serializePair (p : String × String) : String :=
  formEncode p.1 ++ "=" ++ formEncode p.2

/-- `URLSearchParams.toString()`: pairs in list order, joined by `&`. -/
def serializeQuery : List (String × String) → String
  | [] => ""
  | [p] => serializePair p
  | p :: ps => serializePair p ++ "&" ++ serializeQuery ps

/-- Value of an uppercase hex digit character (inverse of `hexDigit` on
digits below 16); used only to state decodability of the encoding. -/
def hexVal (ch : Char) : Nat :=
  if ch.toNat ≤ 0x39 then ch.toNat - 0x30 else ch.toNat - 0x37

/-- Decoder for the form-urlencoded byte stream: `+` is a space, `%`
followed by two hex digits is a byte, anything else is itself.  Inverse
of `List.flatMap encodeByte` on byte lists; used to prove the encoding
injective (distinct parameter values cannot collide). -/
def decodeBytes : List Char → Option (List Nat)
  | [] => some []
  | c :: rest =>
    if c = '%' then
      match rest with
      | h :: l :: rest₂ => (decodeBytes rest₂).map (fun bs => (hexVal h * 16 + hexVal l) :: bs)
      | _ => none
    else if c = '+' then (decodeBytes rest).map (fun bs => 0x20 :: bs)
    else (decodeBytes rest).map (fun bs => c.toNat :: bs)

/-- All characters of the string are ASCII.  The query parameter names
and values used in this repository (field projections, `$top`, `$skip`,
issue queries) are ASCII. -/
abbrev asciiStr (s : String) : Prop := ∀ c ∈ s.data, c.toNat < 128

/-- `URLSearchParams.set(k, v)`: replace the first pair named `k` in
place (dropping any later duplicates), or append if absent. -/
def searchParamsSet : List (String × String) → String → String → List (String × String)
  | [], k, v => [(k, v)]
  | (k₁, v₁) :: rest, k, v =>
    if k₁ = k then (k, v) :: rest.filter (fun p => ¬ p.1 = k)
    else (k₁, v₁) :: searchParamsSet rest k v

/-- `buildUrl(path, params)` from client.ts:
`new URL(apiBase + path)`, then `url.searchParams.set(k, String(v))`
for each entry of `params` in enumeration order, then `url.toString()`.
Modelling assumption: `apiBase ++ path` is an already-normalized
absolute URL with no query or fragment component, as in every call in
this repository (`apiBase` is origin + "/api", paths like
"/issues/FOO-1"), so `toString()` is the base string followed by the
serialized search (prefixed by `?` when non-empty).  Note the source
does not sort the parameters: they stay in `Object.entries` order. -/
def buildUrl (apiBase path : String) (params : Option (List (String × ParamValue))) : String :=
  let qs :=
    match params with
    | none => []
    | some ps => ps.foldl (fun acc p => searchParamsSet acc p.1 p.2.toJs) []
  apiBase ++ path ++ (if qs.isEmpty then "" else "?" ++ serializeQuery qs)

-- ════════════════════════════════════════════════════════════════════
-- §4  client.ts — retry engine, health counter
-- ════════════════════════════════════════════════════════════════════

/-- Severity levels of the degradation callback. -/
inductive Level where
  | warning
  | error
  deriving DecidableEq, Repr

/-- `DEGRADATION_THRESHOLDS` from client.ts:
`[{count: 3, level: "warning"}, {count: 5, level: "error"}]`. -/
def DEGRADATION_THRESHOLDS : List (Nat × Level) := [(3, .warning), (5, .error)]

/-- `RETRY_DELAYS_MS = [500, 1500]` — delays between successive retry
attempts; length = max retry count. -/
def RETRY_DELAYS_MS : List Nat := [500, 1500]

/-- `new YouTrackError("Request cancelled by client", undefined, false)`
as thrown by `fetchWithRetry` and `fetchJson`. -/
def cancelledByClient : YouTrackError :=
  ⟨"Request cancelled by client", none, false, 0, none⟩

/-- `recordFailure(err)` from client.ts: a transient `YouTrackError`
increments the consecutive-failure counter and fires the degradation
callback when the counter equals a threshold (first match, then break);
any other failure resets the counter to zero.  Returns the new counter
and the levels fired (at most one). -/
def recordFailure (counter : Nat) (e : JsErr) : Nat × List Level :=
  if e.isTransientYt then
    let c := counter + 1
    match List.find? (fun t => t.1 = c) DEGRADATION_THRESHOLDS with
    | some t => (c, [t.2])
    | none => (c, [])
  else (0, [])

/-- The final-failure re-throw of `fetchWithRetry`:
`if (err instanceof YouTrackError && attempt > 0) throw new
YouTrackError(err.message, err.statusCode, err.isTransient, attempt)`.
The constructor call passes no fifth argument, so the rebuilt error's
`retryAfterMs` is `undefined`. -/
def rethrowWithRetryCount (e : JsErr) (attempt : Nat) : JsErr :=
  match e with
  | .yt err =>
    if 0 < attempt then .yt ⟨err.message, err.statusCode, err.isTransient, attempt, none⟩
    else .yt err
  | .other m => .other m

instance : DecidableEq (Except JsErr Nat) := fun a b =>
  match a, b with
  | .ok x, .ok y => if h : x = y then .isTrue (by rw [h]) else .isFalse (by simp [h])
  | .error x, .error y => if h : x = y then .isTrue (by rw [h]) else .isFalse (by simp [h])
  | .ok _, .error _ => .isFalse (by simp)
  | .error _, .ok _ => .isFalse (by simp)

/-- Everything `fetchWithRetry` produces besides its return value /
thrown error: number of `fn()` invocations, the consecutive-failure
counter afterwards, degradation notifications fired, and the backoff
delays slept. -/
structure RetryOutcome where
  result : Except JsErr Nat
  attempts : Nat
  counter : Nat
  fired : List Level
  sleeps : List Nat
  deriving DecidableEq, Repr

/-- The final-failure branch of `fetchWithRetry`:
`this.recordFailure(err)` then the re-throw. -/
def finalFailure (e : JsErr) (attempt counter : Nat) : RetryOutcome :=
  let rc := recordFailure counter e
  ⟨.error (rethrowWithRetryCount e attempt), attempt + 1, rc.1, rc.2, []⟩

/-- The `for (let attempt = 0;;attempt++)` loop of `fetchWithRetry`.
`script n` is the outcome of the `n`-th invocation of `fn` (success
value or thrown exception).  `sig n` is the value of `signal?.aborted`
at its `n`-th read: the loop-top check of attempt `i` is read `2*i`, the
retry-condition check after a failed attempt `i` is read `2*i + 1`.
`delays` is the suffix `RETRY_DELAYS_MS.drop attempt`, so
`attempt < RETRY_DELAYS_MS.length` (`hasRetries`) iff `delays ≠ []`,
and the delay slept is `RETRY_DELAYS_MS[attempt] = delays.head`. -/
def fetchWithRetryGo (script : Nat → Except JsErr Nat) (sig : Nat → Bool) :
    List Nat → Nat → Nat → RetryOutcome
  | delays, attempt, counter =>
    if sig (2 * attempt) then
      ⟨.error (.yt cancelledByClient), attempt, counter, [], []⟩
    else
      match script attempt with
      | .ok v => ⟨.ok v, attempt + 1, 0, [], []⟩
      | .error e =>
        match delays with
        | d :: rest =>
          if e.isTransientYt && ! sig (2 * attempt + 1) then
            let r := fetchWithRetryGo script sig rest (attempt + 1) counter
            { r with sleeps := d :: r.sleeps }
          else
            finalFailure e attempt counter
        | [] => finalFailure e attempt counter

/-- `fetchWithRetry(fn, signal)` from client.ts, starting with
consecutive-failure counter `counter`. -/
def fetchWithRetry (script : Nat → Except JsErr Nat) (sig : Nat → Bool)
    (counter : Nat) : RetryOutcome :=
  fetchWithRetryGo script sig RETRY_DELAYS_MS 0 counter

-- ════════════════════════════════════════════════════════════════════
-- §5  client.ts — fetchJson, get, refresh
-- ════════════════════════════════════════════════════════════════════

/-- `TIMEOUT_MS = 30_000`. -/
def TIMEOUT_MS : Nat := 30000

/-- What a single `fetch` of `fetchJson` does, as observed by the code:
a 2xx response with JSON payload `v`; a non-2xx response with status and
the detail string `parseErrorBody` extracts from its body; a thrown
`DOMException` named TimeoutError; any other throw while
`signal.aborted` is true; any other throw while it is false. -/
inductive FetchEvent where
  | ok (v : Nat)
  | httpError (status : Nat) (detail : String)
  | timeoutThrow
  | abortThrow (m : String)
  | netThrow (m : String)
  deriving DecidableEq, Repr

/-- `fetchJson(url, signal)` from client.ts, as a function of the fetch
outcome: timeout → transient no-status error; throw while aborted →
non-transient cancellation error; other throw → transient no-status
error with the thrown message; non-ok response → error carrying the
parsed detail, the status, and `isTransientStatus(status)`. -/
def fetchJson : FetchEvent → Except JsErr Nat
  | .ok v => .ok v
  | .timeoutThrow =>
    .error (.yt ⟨"Request timed out after " ++ toString TIMEOUT_MS ++ "ms", none, true, 0, none⟩)
  | .abortThrow _ => .error (.yt cancelledByClient)
  | .netThrow m => .error (.yt ⟨m, none, true, 0, none⟩)
  | .httpError s d => .error (.yt ⟨d, some s, isTransientStatus s, 0, none⟩)

/-- The mutable state of a `YouTrackClient` relevant to the claims: the
TTL cache store and the consecutive-failure counter. -/
structure ClientState where
  cache : Store
  consecutiveFailures : Nat
  deriving DecidableEq, Repr

/-- Observable outcome of one `get`/`refresh` call: returned value or
thrown error, the client state afterwards, the number of network
attempts made, and the degradation notifications fired. -/
structure CallResult where
  result : Except JsErr Nat
  state : ClientState
  attempts : Nat
  fired : List Level
  deriving DecidableEq, Repr

/-- `YouTrackClient.get(path, params, ttlMs, signal)` from client.ts:
build the URL; when `ttlMs` is supplied use the URL as cache key and
return a fresh cache hit without network activity; otherwise (or on a
miss) run `fetchJson` through `fetchWithRetry` and, when `ttlMs` is
supplied, store the successful result under the key. -/
def YouTrackClient.get (apiBase path : String) (params : Option (List (String × ParamValue)))
    (ttlMs : Option Nat) (script : Nat → Except JsErr Nat) (sig : Nat → Bool)
    (now : Nat) (st : ClientState) : CallResult :=
  let urlStr := buildUrl apiBase path params
  match ttlMs with
  | some ttl =>
    match TTLCache.get now st.cache urlStr with
    | (some v, cache₁) => ⟨.ok v, ⟨cache₁, st.consecutiveFailures⟩, 0, []⟩
    | (none, cache₁) =>
      let r := fetchWithRetry script sig st.consecutiveFailures
      match r.result with
      | .ok v => ⟨.ok v, ⟨TTLCache.set now cache₁ urlStr v ttl, r.counter⟩, r.attempts, r.fired⟩
      | .error e => ⟨.error e, ⟨cache₁, r.counter⟩, r.attempts, r.fired⟩
  | none =>
    let r := fetchWithRetry script sig st.consecutiveFailures
    ⟨r.result, ⟨st.cache, r.counter⟩, r.attempts, r.fired⟩

/-- `YouTrackClient.refresh(path, params, ttlMs, signal)` from
client.ts: always run the network fetch (no cache read); when `ttlMs`
is supplied, store the successful result under the same key `get`
would use. -/
def YouTrackClient.refresh (apiBase path : String) (params : Option (List (String × ParamValue)))
    (ttlMs : Option Nat) (script : Nat → Except JsErr Nat) (sig : Nat → Bool)
    (now : Nat) (st : ClientState) : CallResult :=
  let urlStr := buildUrl apiBase path params
  let r := fetchWithRetry script sig st.consecutiveFailures
  match ttlMs, r.result with
  | some ttl, .ok v =>
    ⟨.ok v, ⟨TTLCache.set now st.cache urlStr v ttl, r.counter⟩, r.attempts, r.fired⟩
  | _, _ => ⟨r.result, ⟨st.cache, r.counter⟩, r.attempts, r.fired⟩

/-- A sequence of API calls through the retry engine, as it affects the
process-wide consecutive-failure counter: each element is the attempt
script and signal of one call.  Returns the final counter and the
concatenation of all degradation notifications fired. -/
def runCalls : List ((Nat → Except JsErr Nat) × (Nat → Bool)) → Nat → Nat × List Level
  | [], counter => (counter, [])
  | c :: rest, counter =>
    let r := fetchWithRetry c.1 c.2 counter
    let t := runCalls rest r.counter
    (t.1, r.fired ++ t.2)

-- ════════════════════════════════════════════════════════════════════
-- §6  warmup.ts — scheduleRefreshBatch concurrency guard
-- ════════════════════════════════════════════════════════════════════

/-- Events observed by one tier's interval callback in
`scheduleRefreshBatch`: a timer tick fires, or the in-flight
`fetchBatch` cycle completes (the `finally` block runs). -/
inductive SchedEvent where
  | tick
  | complete
  deriving DecidableEq, Repr

/-- One tier's scheduler state: the `running` flag, plus bookkeeping of
how many refresh cycles were started and completed and how many ticks
were skipped by the guard. -/
structure SchedState where
  running : Bool
  started : Nat
  completed : Nat
  skipped : Nat
  deriving DecidableEq, Repr

/-- The interval callback of `scheduleRefreshBatch` from warmup.ts:
`if (running) return;` — a tick during a running cycle is skipped
entirely (nothing queued, nothing merged); otherwise `running = true`
and a new `fetchBatch` cycle starts.  When the cycle settles, the
`finally` block sets `running = false`. -/
def schedStep (s : SchedState) : SchedEvent → SchedState
  | .tick =>
    if s.running then { s with skipped := s.skipped + 1 }
    else { s with running := true, started := s.started + 1 }
  | .complete =>
    if s.running then { s with running := false, completed := s.completed + 1 }
    else s

/-- A tier's scheduler run from its initial state
(`let running = false`, no cycles yet). -/
def schedRun (evs : List SchedEvent) : SchedState :=
  evs.foldl schedStep ⟨false, 0, 0, 0⟩

/-- Helper calls for the degradation-threshold scenarios: an API call
that fails with HTTP 503 on every attempt, one that succeeds, and one
that fails with HTTP 404 (semantic). -/
def failCall : (Nat → Except JsErr Nat) × (Nat → Bool) :=
  (fun _ => fetchJson (.httpError 503 "Service Unavailable"), fun _ => false)

def okCall : (Nat → Except JsErr Nat) × (Nat → Bool) :=
  (fun _ => fetchJson (.ok 1), fun _ => false)

def semCall : (Nat → Except JsErr Nat) × (Nat → Bool) :=
  (fun _ => fetchJson (.httpError 404 "Not Found"), fun _ => false)


-- ════════════════════════════════════════════════════════════════════
-- §7  Store lemmas
-- ════════════════════════════════════════════════════════════════════

theorem storeFind_nil (k : String) : storeFind [] k = none := rfl

theorem storeFind_cons (p : String × Nat × Nat) (store : Store) (k : String) :
    storeFind (p :: store) k = if p.1 = k then some p.2 else storeFind store k := by
  by_cases h : p.1 = k <;> simp [storeFind, List.find?_cons, h]

theorem storeSet_fresh (store : Store) (k : String) (e : Nat × Nat)
    (h : storeFind store k = none) : storeSet store k e = store ++ [(k, e)] := by
  induction store with
  | nil => rfl
  | cons p rest ih =>
    rw [storeFind_cons] at h
    by_cases hk : p.1 = k
    · simp [hk] at h
    · cases p with
      | mk k₁ e₁ =>
        simp only at hk
        simp [storeSet, hk, ih (by simpa [hk] using h)]

theorem storeFind_append_of_none (s₁ s₂ : Store) (k : String)
    (h : storeFind s₁ k = none) : storeFind (s₁ ++ s₂) k = storeFind s₂ k := by
  induction s₁ with
  | nil => rfl
  | cons p rest ih =>
    rw [storeFind_cons] at h
    by_cases hk : p.1 = k
    · simp [hk] at h
    · rw [List.cons_append, storeFind_cons, if_neg hk]
      exact ih (by simpa [hk] using h)

theorem storeFind_storeSet_self (store : Store) (k : String) (e : Nat × Nat) :
    storeFind (storeSet store k e) k = some e := by
  induction store with
  | nil => simp [storeSet, storeFind]
  | cons p rest ih =>
    cases p with
    | mk k₁ e₁ =>
      by_cases hk : k₁ = k
      · simp [storeSet, hk, storeFind_cons]
      · rw [storeSet, if_neg hk, storeFind_cons, if_neg hk]
        exact ih

/-- Inserting a list of keys that are all absent from the store appends
them in order, one entry each. -/
theorem foldl_set_fresh (now v ttl : Nat) (ks : List String) (st : Store)
    (hfresh : ∀ k ∈ ks, storeFind st k = none) (hnd : ks.Nodup) :
    ks.foldl (fun s k => TTLCache.set now s k v ttl) st =
      st ++ ks.map (fun k => (k, v, now + ttl)) := by
  induction ks generalizing st with
  | nil => simp
  | cons k rest ih =>
    have hk : storeFind st k = none := hfresh k (by simp)
    have hstep : TTLCache.set now st k v ttl = st ++ [(k, v, now + ttl)] :=
      storeSet_fresh st k (v, now + ttl) hk
    have hnd₁ : rest.Nodup := (List.nodup_cons.mp hnd).2
    have hkrest : k ∉ rest := (List.nodup_cons.mp hnd).1
    have hfresh₁ : ∀ k₂ ∈ rest, storeFind (st ++ [(k, v, now + ttl)]) k₂ = none := by
      intro k₂ hk₂
      rw [storeFind_append_of_none _ _ _ (hfresh k₂ (by simp [hk₂]))]
      rw [storeFind_cons]
      have : k ≠ k₂ := fun h => hkrest (h ▸ hk₂)
      simp [this, storeFind]
    calc (k :: rest).foldl (fun s k => TTLCache.set now s k v ttl) st
        = rest.foldl (fun s k => TTLCache.set now s k v ttl) (st ++ [(k, v, now + ttl)]) := by
          rw [List.foldl_cons, hstep]
      _ = st ++ [(k, v, now + ttl)] ++ rest.map (fun k => (k, v, now + ttl)) :=
          ih _ hfresh₁ hnd₁
      _ = st ++ (k :: rest).map (fun k => (k, v, now + ttl)) := by simp

theorem storeFind_map_const (ks : List String) (v e : Nat) (k : String) (hk : k ∈ ks) :
    storeFind (ks.map fun k => (k, v, e)) k = some (v, e) := by
  induction ks with
  | nil => simp at hk
  | cons k₁ rest ih =>
    rw [List.map_cons, storeFind_cons]
    by_cases h : k₁ = k
    · simp [h]
    · rw [if_neg h]
      exact ih (by
        rcases List.mem_cons.mp hk with h₁ | h₁
        · exact absurd h₁.symm h
        · exact h₁)

/-- C1: the claim states the TTL cache is capacity-bounded at some fixed
N ≈ 1000 with FIFO eviction of the oldest entry.  The source `TTLCache`
(client.ts) has no capacity check at all: `set` of any number of
pairwise-distinct fresh keys grows the store by exactly the number of
keys inserted, and every inserted key — in particular the oldest —
still hits afterwards.  With 1001 distinct keys the store holds 1001
entries and the first key does not miss, contradicting the claim and
the repository's own test ("evicts oldest entry when cache exceeds
capacity"). -/
theorem ttlcache_has_no_capacity_bound (ks : List String) (v ttl now : Nat)
    (hnd : ks.Nodup) :
    (ks.foldl (fun s k => TTLCache.set now s k v ttl) []).length = ks.length ∧
    ∀ k ∈ ks,
      (TTLCache.get now (ks.foldl (fun s k => TTLCache.set now s k v ttl) []) k).1 = some v := by
  have hfold := foldl_set_fresh now v ttl ks [] (by intro k _; rfl) hnd
  constructor
  · rw [hfold]; simp
  · intro k hk
    rw [hfold]
    simp only [List.nil_append]
    rw [TTLCache.get, storeFind_map_const ks v (now + ttl) k hk]
    have : ¬ now > now + ttl := by omega
    simp [this]

/-- Concrete instance of `ttlcache_has_no_capacity_bound`: three fresh
keys give a store of three entries and the oldest key still hits. -/
theorem ttlcache_has_no_capacity_bound_witness :
    ((["a", "b", "c"] : List String).foldl
        (fun s k => TTLCache.set 0 s k 7 60000) []).length = 3 ∧
    (TTLCache.get 0 ((["a", "b", "c"] : List String).foldl
        (fun s k => TTLCache.set 0 s k 7 60000) []) "a").1 = some 7 := by
  have h := ttlcache_has_no_capacity_bound ["a", "b", "c"] 7 60000 0 (by decide)
  exact ⟨h.1, h.2 "a" (by decide)⟩

-- ════════════════════════════════════════════════════════════════════
-- §8  Retry engine lemmas
-- ════════════════════════════════════════════════════════════════════

theorem rethrowWithRetryCount_zero (e : JsErr) : rethrowWithRetryCount e 0 = e := by
  cases e <;> simp [rethrowWithRetryCount]

theorem rethrowWithRetryCount_isTransientYt (e : JsErr) (a : Nat) :
    (rethrowWithRetryCount e a).isTransientYt = e.isTransientYt := by
  cases e with
  | yt err =>
    simp only [rethrowWithRetryCount]
    split <;> simp [JsErr.isTransientYt]
  | other m => rfl

/-- C3: after a transient failure exhausts the retry budget, the
re-thrown error keeps the message, status code and transience flag and
carries `retryCount = 2`, but its `retryAfterMs` is `undefined` even
when the original failure carried a Retry-After hint: the re-throw in
`fetchWithRetry` (client.ts) calls the `YouTrackError` constructor
without the fifth argument.  The claim (and the repository's own test
"preserves retryAfterMs through re-throw after exhausting retries")
says the hint is preserved; the code drops it. -/
theorem rethrow_drops_retryAfterMs :
    fetchWithRetry
        (fun _ => .error (.yt ⟨"Rate limit exceeded", some 429, true, 0, some 120000⟩))
        (fun _ => false) 0 =
      ⟨.error (.yt ⟨"Rate limit exceeded", some 429, true, 2, none⟩), 3, 1, [], [500, 1500]⟩ ∧
    (some 120000 : Option Nat) ≠ none := by decide

/-- C4 counterexample: the cancellation signal turns on between the
failed first attempt and the scheduled retry (`sig` is false at the
loop-top check, true at the retry check).  No retry happens, but the
failure propagated to the caller is the original transient 503 error —
not a cancellation failure: its message is not "Request cancelled by
client" and it is still transient. -/
theorem cancel_between_attempts_keeps_original_failure :
    fetchWithRetry
        (fun _ => .error (.yt ⟨"Service unavailable", some 503, true, 0, none⟩))
        (fun n => decide (1 ≤ n)) 0 =
      ⟨.error (.yt ⟨"Service unavailable", some 503, true, 0, none⟩), 1, 1, [], []⟩ ∧
    "Service unavailable" ≠ cancelledByClient.message ∧
    (YouTrackError.mk "Service unavailable" (some 503) true 0 none).isTransient = true := by
  decide

/-- C4 amended: a signal already aborted before any attempt makes the
call fail immediately with the non-transient cancellation error and
zero network attempts; a signal that triggers between a failed attempt
and its scheduled retry prevents the retry (exactly one attempt, no
backoff sleep), and the engine re-throws the original failure — it is
not replaced by a cancellation failure. -/
theorem fetchWithRetry_cancellation (script : Nat → Except JsErr Nat) (sig : Nat → Bool)
    (c : Nat) :
    (sig 0 = true →
      fetchWithRetry script sig c = ⟨.error (.yt cancelledByClient), 0, c, [], []⟩) ∧
    (∀ e, sig 0 = false → sig 1 = true → script 0 = .error e →
      fetchWithRetry script sig c =
        ⟨.error e, 1, (recordFailure c e).1, (recordFailure c e).2, []⟩) := by
  constructor
  · intro h
    simp [fetchWithRetry, fetchWithRetryGo, h]
  · intro e h0 h1 hs
    simp [fetchWithRetry, fetchWithRetryGo, RETRY_DELAYS_MS, h0, h1, hs, finalFailure,
      rethrowWithRetryCount_zero]

/-- Concrete instance of `fetchWithRetry_cancellation`: a pre-aborted
signal yields the cancellation failure with zero attempts and an
untouched counter; an abort after a failed first attempt yields the
original error after exactly one attempt. -/
theorem fetchWithRetry_cancellation_witness :
    fetchWithRetry (fun _ => .ok 5) (fun _ => true) 4 =
      ⟨.error (.yt cancelledByClient), 0, 4, [], []⟩ ∧
    fetchWithRetry (fun _ => .error (.other "boom")) (fun n => decide (1 ≤ n)) 0 =
      ⟨.error (.other "boom"), 1, 0, [], []⟩ := by
  have h₁ := (fetchWithRetry_cancellation (fun _ => .ok 5) (fun _ => true) 4).1 rfl
  have h₂ := (fetchWithRetry_cancellation (fun _ => .error (.other "boom"))
    (fun n => decide (1 ≤ n)) 0).2 (.other "boom") (by decide) (by decide) rfl
  refine ⟨h₁, ?_⟩
  rw [h₂]
  simp [recordFailure, JsErr.isTransientYt]

/-- C10 counterexample: a request whose signal is already aborted at
the loop-top check throws the non-transient cancellation failure
*before* `recordFailure` runs, so with the consecutive-failure counter
at 2 it stays at 2 instead of being reset to 0. -/
theorem pre_abort_cancellation_leaves_counter_unchanged :
    fetchWithRetry (fun _ => .ok 7) (fun _ => true) 2 =
      ⟨.error (.yt cancelledByClient), 0, 2, [], []⟩ ∧
    cancelledByClient.isTransient = false ∧ (2 : Nat) ≠ 0 := by decide

section StepLemmas

variable (script : Nat → Except JsErr Nat) (sig : Nat → Bool)

/-- One loop iteration, cancellation pre-check branch: the loop-top
read of `signal.aborted` is true, so the cancellation error is thrown
with no further attempt and no counter update. -/
theorem fetchWithRetryGo_cancel (delays : List Nat) (attempt c : Nat)
    (h0 : sig (2 * attempt) = true) :
    fetchWithRetryGo script sig delays attempt c =
      ⟨.error (.yt cancelledByClient), attempt, c, [], []⟩ := by
  rw [fetchWithRetryGo, h0]
  simp

/-- One loop iteration, success branch: `fn()` returns and the counter
is reset to zero. -/
theorem fetchWithRetryGo_ok (delays : List Nat) (attempt c v : Nat)
    (h0 : sig (2 * attempt) = false) (hs : script attempt = .ok v) :
    fetchWithRetryGo script sig delays attempt c = ⟨.ok v, attempt + 1, 0, [], []⟩ := by
  rw [fetchWithRetryGo, h0]
  simp [hs]

/-- One loop iteration, final-failure branch: the attempt failed and no
retry happens (budget exhausted, non-transient error, or the signal
aborted at the retry check). -/
theorem fetchWithRetryGo_final (delays : List Nat) (attempt c : Nat) (e₀ : JsErr)
    (h0 : sig (2 * attempt) = false) (hs : script attempt = .error e₀)
    (hcond : delays = [] ∨ e₀.isTransientYt = false ∨ sig (2 * attempt + 1) = true) :
    fetchWithRetryGo script sig delays attempt c = finalFailure e₀ attempt c := by
  rw [fetchWithRetryGo, h0]
  rcases delays with _ | ⟨d, rest⟩
  · simp [hs]
  · have hc : (e₀.isTransientYt && ! sig (2 * attempt + 1)) = false := by
      rcases hcond with h | h | h
      · simp at h
      · simp [h]
      · simp [h]
    simp [hs, hc]

/-- One loop iteration, retry branch: transient failure, retries left,
signal not aborted — sleep the current delay and loop. -/
theorem fetchWithRetryGo_retry (d : Nat) (rest : List Nat) (attempt c : Nat) (e₀ : JsErr)
    (h0 : sig (2 * attempt) = false) (hs : script attempt = .error e₀)
    (ht : e₀.isTransientYt = true) (h1 : sig (2 * attempt + 1) = false) :
    fetchWithRetryGo script sig (d :: rest) attempt c =
      { result := (fetchWithRetryGo script sig rest (attempt + 1) c).result,
        attempts := (fetchWithRetryGo script sig rest (attempt + 1) c).attempts,
        counter := (fetchWithRetryGo script sig rest (attempt + 1) c).counter,
        fired := (fetchWithRetryGo script sig rest (attempt + 1) c).fired,
        sleeps := d :: (fetchWithRetryGo script sig rest (attempt + 1) c).sleeps } := by
  rw [fetchWithRetryGo, h0]
  simp [hs, ht, h1]

end StepLemmas

theorem finalFailure_counter_eq_zero (e₀ : JsErr) (attempt c : Nat) (e : JsErr)
    (hres : (finalFailure e₀ attempt c).result = .error e) (ht : e.isTransientYt = false) :
    (finalFailure e₀ attempt c).counter = 0 := by
  simp only [finalFailure] at hres ⊢
  have he : rethrowWithRetryCount e₀ attempt = e := by simpa using hres
  have h2 : e₀.isTransientYt = false := by
    rw [← rethrowWithRetryCount_isTransientYt e₀ attempt, he, ht]
  simp [recordFailure, h2]

theorem fetchWithRetryGo_counter_reset (script : Nat → Except JsErr Nat) (sig : Nat → Bool)
    (delays : List Nat) (attempt c : Nat)
    (hsig : ∀ i, sig (2 * i) = false) (e : JsErr)
    (hres : (fetchWithRetryGo script sig delays attempt c).result = .error e)
    (ht : e.isTransientYt = false) :
    (fetchWithRetryGo script sig delays attempt c).counter = 0 := by
  induction delays generalizing attempt with
  | nil =>
    cases hscript : script attempt with
    | ok v =>
      rw [fetchWithRetryGo_ok script sig [] attempt c v (hsig attempt) hscript] at hres
      simp at hres
    | error e₀ =>
      rw [fetchWithRetryGo_final script sig [] attempt c e₀ (hsig attempt) hscript
        (Or.inl rfl)] at hres ⊢
      exact finalFailure_counter_eq_zero e₀ attempt c e hres ht
  | cons d rest ih =>
    cases hscript : script attempt with
    | ok v =>
      rw [fetchWithRetryGo_ok script sig (d :: rest) attempt c v (hsig attempt) hscript] at hres
      simp at hres
    | error e₀ =>
      by_cases h2 : e₀.isTransientYt = true
      · by_cases h3 : sig (2 * attempt + 1) = true
        · rw [fetchWithRetryGo_final script sig (d :: rest) attempt c e₀ (hsig attempt) hscript
            (Or.inr (Or.inr h3))] at hres ⊢
          exact finalFailure_counter_eq_zero e₀ attempt c e hres ht
        · have h3f : sig (2 * attempt + 1) = false := by simpa using h3
          rw [fetchWithRetryGo_retry script sig d rest attempt c e₀ (hsig attempt) hscript
            h2 h3f] at hres ⊢
          exact ih (attempt + 1) hres
      · have h2f : e₀.isTransientYt = false := by simpa using h2
        rw [fetchWithRetryGo_final script sig (d :: rest) attempt c e₀ (hsig attempt) hscript
          (Or.inr (Or.inl h2f))] at hres ⊢
        exact finalFailure_counter_eq_zero e₀ attempt c e hres ht

/-- C10 amended: when the signal is never aborted at a loop-top check,
every final failure that is not a transient YouTrackError — semantic
HTTP errors, cancellation failures thrown during an attempt, and
non-YouTrackError exceptions — resets the consecutive-failure counter
to zero; but a request whose cancellation is detected at the loop-top
check (in particular one cancelled before any attempt) is thrown
without running `recordFailure`, leaving the counter unchanged. -/
theorem counter_reset_on_nontransient_final_failure (script : Nat → Except JsErr Nat)
    (sig : Nat → Bool) (c : Nat) :
    ((∀ i, sig (2 * i) = false) → ∀ e,
      (fetchWithRetry script sig c).result = .error e → e.isTransientYt = false →
      (fetchWithRetry script sig c).counter = 0) ∧
    (sig 0 = true → (fetchWithRetry script sig c).counter = c) := by
  constructor
  · intro hsig e hres ht
    exact fetchWithRetryGo_counter_reset script sig RETRY_DELAYS_MS 0 c hsig e hres ht
  · intro h
    simp [fetchWithRetry, fetchWithRetryGo, h]

/-- Concrete instance of `counter_reset_on_nontransient_final_failure`:
a 404 (semantic) failure resets the counter from 2 to 0, while a
pre-aborted request keeps the counter at 3. -/
theorem counter_reset_on_nontransient_final_failure_witness :
    (fetchWithRetry (fun _ => .error (.yt ⟨"nf", some 404, false, 0, none⟩))
        (fun _ => false) 2).counter = 0 ∧
    (fetchWithRetry (fun _ => .ok 1) (fun _ => true) 3).counter = 3 := by
  refine ⟨(counter_reset_on_nontransient_final_failure
      (fun _ => .error (.yt ⟨"nf", some 404, false, 0, none⟩)) (fun _ => false) 2).1
      (fun i => rfl) (.yt ⟨"nf", some 404, false, 0, none⟩) (by decide) (by decide), ?_⟩
  exact (counter_reset_on_nontransient_final_failure
      (fun _ => .ok 1) (fun _ => true) 3).2 rfl

-- ════════════════════════════════════════════════════════════════════
-- §9  Scheduler (C9) and degradation thresholds (C7)
-- ════════════════════════════════════════════════════════════════════

theorem schedStep_preserves_inv (s : SchedState) (ev : SchedEvent)
    (h : s.started = s.completed + (if s.running then 1 else 0)) :
    (schedStep s ev).started = (schedStep s ev).completed +
      (if (schedStep s ev).running then 1 else 0) := by
  cases ev <;> cases hr : s.running <;> simp [schedStep, hr] <;> simp [hr] at h <;> omega

theorem schedRun_inv (evs : List SchedEvent) :
    (schedRun evs).started = (schedRun evs).completed +
      (if (schedRun evs).running then 1 else 0) := by
  suffices h : ∀ s : SchedState,
      s.started = s.completed + (if s.running then 1 else 0) →
      (evs.foldl schedStep s).started = (evs.foldl schedStep s).completed +
        (if (evs.foldl schedStep s).running then 1 else 0) by
    exact h ⟨false, 0, 0, 0⟩ (by simp)
  induction evs with
  | nil => intro s hs; simpa using hs
  | cons ev rest ih =>
    intro s hs
    exact ih (schedStep s ev) (schedStep_preserves_inv s ev hs)

/-- C9: after any sequence of tick/completion events, a tier's refresh
scheduler has at most one cycle in flight
(`started = completed + (1 if running else 0)`); a tick that arrives
while a cycle is running starts nothing and is counted as skipped
(not queued, not merged); a tick while idle starts exactly one cycle;
and once the in-flight cycle completes, the very next tick starts a new
cycle. -/
theorem scheduler_tier_no_overlap (evs : List SchedEvent) :
    (schedRun evs).started = (schedRun evs).completed +
      (if (schedRun evs).running then 1 else 0) ∧
    (schedStep (schedRun evs) .tick).started =
      (schedRun evs).started + (if (schedRun evs).running then 0 else 1) ∧
    (schedStep (schedRun evs) .tick).skipped =
      (schedRun evs).skipped + (if (schedRun evs).running then 1 else 0) ∧
    (schedStep (schedStep (schedRun evs) .complete) .tick).started =
      (schedStep (schedRun evs) .complete).started + 1 := by
  refine ⟨schedRun_inv evs, ?_, ?_, ?_⟩ <;>
    cases hr : (schedRun evs).running <;> simp [schedStep, hr]

theorem recordFailure_transient (c : Nat) (e : JsErr) (ht : e.isTransientYt = true) :
    recordFailure c e =
      (c + 1, if c + 1 = 3 then [Level.warning]
              else if c + 1 = 5 then [Level.error] else []) := by
  rw [recordFailure, if_pos ht]
  by_cases h3 : c + 1 = 3
  · simp [DEGRADATION_THRESHOLDS, List.find?, ← h3]
  · by_cases h5 : c + 1 = 5
    · have h3x : (3 : Nat) ≠ c + 1 := fun h => h3 h.symm
      simp [DEGRADATION_THRESHOLDS, List.find?, h3x, ← h5, h3]
    · have h3x : (3 : Nat) ≠ c + 1 := fun h => h3 h.symm
      have h5x : (5 : Nat) ≠ c + 1 := fun h => h5 h.symm
      simp [DEGRADATION_THRESHOLDS, List.find?, h3x, h5x, h3, h5]

/-- A 503-on-every-attempt call exhausts the budget: 3 attempts, both
backoff delays, counter incremented, threshold notification iff the new
counter value is exactly 3 or 5. -/
theorem fetchWithRetry_failCall (c : Nat) :
    fetchWithRetry failCall.1 failCall.2 c =
      ⟨.error (.yt ⟨"Service Unavailable", some 503, true, 2, none⟩), 3, c + 1,
        (if c + 1 = 3 then [Level.warning]
         else if c + 1 = 5 then [Level.error] else []), [500, 1500]⟩ := by
  rw [fetchWithRetry, RETRY_DELAYS_MS]
  rw [fetchWithRetryGo_retry failCall.1 failCall.2 500 [1500] 0 c
    (.yt ⟨"Service Unavailable", some 503, true, 0, none⟩) rfl rfl rfl rfl]
  rw [fetchWithRetryGo_retry failCall.1 failCall.2 1500 [] 1 c
    (.yt ⟨"Service Unavailable", some 503, true, 0, none⟩) rfl rfl rfl rfl]
  rw [fetchWithRetryGo_final failCall.1 failCall.2 [] 2 c
    (.yt ⟨"Service Unavailable", some 503, true, 0, none⟩) rfl rfl (Or.inl rfl)]
  rw [finalFailure,
    recordFailure_transient c (.yt ⟨"Service Unavailable", some 503, true, 0, none⟩) rfl]
  simp [rethrowWithRetryCount]

theorem runCalls_append (a b : List ((Nat → Except JsErr Nat) × (Nat → Bool))) (c : Nat) :
    runCalls (a ++ b) c =
      ((runCalls b (runCalls a c).1).1,
       (runCalls a c).2 ++ (runCalls b (runCalls a c).1).2) := by
  induction a generalizing c with
  | nil => simp [runCalls]
  | cons x rest ih => simp [runCalls, ih]

/-- Once the counter is at or above 5, further all-transient calls keep
incrementing it and fire nothing. -/
theorem runCalls_failCall_high (k c : Nat) (hc : 5 ≤ c) :
    runCalls (List.replicate k failCall) c = (c + k, []) := by
  induction k generalizing c with
  | zero => simp [runCalls]
  | succ n ih =>
    have h3 : ¬ c + 1 = 3 := by omega
    have h5 : ¬ c + 1 = 5 := by omega
    rw [List.replicate_succ]
    simp only [runCalls, fetchWithRetry_failCall c, h3, h5, if_false]
    rw [ih (c + 1) (by omega)]
    simp
    omega

/-- C7: the degradation callback fires exactly once when the
consecutive-transient-failure counter reaches 3 (warning) and exactly
once more at 5 (error), with no re-firing on later failures: any run of
k ≥ 5 consecutive transient-failing calls fires exactly
[warning, error].  A success (or a semantic 404 failure) resets the
counter, and three transient failures after the reset re-trigger the
3-threshold warning. -/
theorem degradation_thresholds_fire_once (k : Nat) (hk : 5 ≤ k) :
    (runCalls (List.replicate k failCall) 0).2 = [Level.warning, Level.error] ∧
    (runCalls [failCall, failCall, okCall, failCall, failCall, failCall] 0).2 =
      [Level.warning] ∧
    (runCalls [failCall, failCall, failCall, semCall, failCall, failCall, failCall] 0).2 =
      [Level.warning, Level.warning] := by
  refine ⟨?_, by decide, by decide⟩
  obtain ⟨m, rfl⟩ : ∃ m, k = 5 + m := ⟨k - 5, by omega⟩
  rw [List.replicate_add, runCalls_append]
  have h5 : runCalls (List.replicate 5 failCall) 0 = (5, [Level.warning, Level.error]) := by
    decide
  rw [h5]
  rw [runCalls_failCall_high m 5 (by omega)]
  simp

/-- Concrete instance of `degradation_thresholds_fire_once`: seven
consecutive transient-failing calls fire exactly the 3-threshold
warning and the 5-threshold error notification. -/
theorem degradation_thresholds_fire_once_witness :
    (runCalls (List.replicate 7 failCall) 0).2 = [Level.warning, Level.error] :=
  (degradation_thresholds_fire_once 7 (by decide)).1

-- ════════════════════════════════════════════════════════════════════
-- §10  Cache-path lemmas and C6 / C8
-- ════════════════════════════════════════════════════════════════════

theorem fetchWithRetryGo_attempts_lower (script : Nat → Except JsErr Nat) (sig : Nat → Bool)
    (delays : List Nat) (attempt c : Nat) :
    attempt ≤ (fetchWithRetryGo script sig delays attempt c).attempts := by
  induction delays generalizing attempt with
  | nil =>
    cases h0 : sig (2 * attempt) with
    | true => rw [fetchWithRetryGo_cancel script sig [] attempt c h0]
    | false =>
      cases hs : script attempt with
      | ok v =>
        rw [fetchWithRetryGo_ok script sig [] attempt c v h0 hs]
        exact Nat.le_succ attempt
      | error e₀ =>
        rw [fetchWithRetryGo_final script sig [] attempt c e₀ h0 hs (Or.inl rfl)]
        exact Nat.le_succ attempt
  | cons d rest ih =>
    cases h0 : sig (2 * attempt) with
    | true => rw [fetchWithRetryGo_cancel script sig (d :: rest) attempt c h0]
    | false =>
      cases hs : script attempt with
      | ok v =>
        rw [fetchWithRetryGo_ok script sig (d :: rest) attempt c v h0 hs]
        exact Nat.le_succ attempt
      | error e₀ =>
        by_cases ht : e₀.isTransientYt = true
        · by_cases h1 : sig (2 * attempt + 1) = true
          · rw [fetchWithRetryGo_final script sig (d :: rest) attempt c e₀ h0 hs
              (Or.inr (Or.inr h1))]
            exact Nat.le_succ attempt
          · have h1f : sig (2 * attempt + 1) = false := by simpa using h1
            rw [fetchWithRetryGo_retry script sig d rest attempt c e₀ h0 hs ht h1f]
            exact Nat.le_of_succ_le (ih (attempt + 1))
        · have htf : e₀.isTransientYt = false := by simpa using ht
          rw [fetchWithRetryGo_final script sig (d :: rest) attempt c e₀ h0 hs
            (Or.inr (Or.inl htf))]
          exact Nat.le_succ attempt

/-- With a signal not aborted at the start, at least one network
attempt is made. -/
theorem fetchWithRetry_attempts_pos (script : Nat → Except JsErr Nat) (sig : Nat → Bool)
    (c : Nat) (h0 : sig 0 = false) :
    1 ≤ (fetchWithRetry script sig c).attempts := by
  rw [fetchWithRetry, RETRY_DELAYS_MS]
  cases hs : script 0 with
  | ok v =>
    rw [fetchWithRetryGo_ok script sig [500, 1500] 0 c v h0 hs]
  | error e₀ =>
    by_cases ht : e₀.isTransientYt = true
    · by_cases h1 : sig 1 = true
      · rw [fetchWithRetryGo_final script sig [500, 1500] 0 c e₀ h0 hs (Or.inr (Or.inr h1))]
        simp [finalFailure]
      · have h1f : sig (2 * 0 + 1) = false := by simpa using h1
        rw [fetchWithRetryGo_retry script sig 500 [1500] 0 c e₀ h0 hs ht h1f]
        exact fetchWithRetryGo_attempts_lower script sig [1500] 1 c
    · have htf : e₀.isTransientYt = false := by simpa using ht
      rw [fetchWithRetryGo_final script sig [500, 1500] 0 c e₀ h0 hs (Or.inr (Or.inl htf))]
      simp [finalFailure]

/-- `get` on a fresh cache hit: the cached value is returned with zero
network attempts and an unchanged counter. -/
theorem get_hit (apiBase path : String) (params : Option (List (String × ParamValue)))
    (t : Nat) (script : Nat → Except JsErr Nat) (sig : Nat → Bool) (now : Nat)
    (st : ClientState) (v : Nat) (cache₁ : Store)
    (hhit : TTLCache.get now st.cache (buildUrl apiBase path params) = (some v, cache₁)) :
    YouTrackClient.get apiBase path params (some t) script sig now st =
      ⟨.ok v, ⟨cache₁, st.consecutiveFailures⟩, 0, []⟩ := by
  simp only [YouTrackClient.get]
  rw [hhit]

/-- `get` on a cache miss with a first-attempt network success: the
value is returned after one attempt and stored under the URL key. -/
theorem get_miss_ok (apiBase path : String) (params : Option (List (String × ParamValue)))
    (t v : Nat) (script : Nat → Except JsErr Nat) (sig : Nat → Bool) (now : Nat)
    (st : ClientState) (cache₁ : Store)
    (hmiss : TTLCache.get now st.cache (buildUrl apiBase path params) = (none, cache₁))
    (hok : script 0 = .ok v) (h0 : sig 0 = false) :
    YouTrackClient.get apiBase path params (some t) script sig now st =
      ⟨.ok v, ⟨TTLCache.set now cache₁ (buildUrl apiBase path params) v t, 0⟩, 1, []⟩ := by
  have hr : fetchWithRetry script sig st.consecutiveFailures = ⟨.ok v, 1, 0, [], []⟩ := by
    rw [fetchWithRetry]
    exact fetchWithRetryGo_ok script sig RETRY_DELAYS_MS 0 st.consecutiveFailures v h0 hok
  simp only [YouTrackClient.get]
  rw [hmiss, hr]

/-- `refresh` with a first-attempt network success: always one network
attempt, and the result is stored under the same URL key. -/
theorem refresh_ok (apiBase path : String) (params : Option (List (String × ParamValue)))
    (t v : Nat) (script : Nat → Except JsErr Nat) (sig : Nat → Bool) (now : Nat)
    (st : ClientState)
    (hok : script 0 = .ok v) (h0 : sig 0 = false) :
    YouTrackClient.refresh apiBase path params (some t) script sig now st =
      ⟨.ok v, ⟨TTLCache.set now st.cache (buildUrl apiBase path params) v t, 0⟩, 1, []⟩ := by
  have hr : fetchWithRetry script sig st.consecutiveFailures = ⟨.ok v, 1, 0, [], []⟩ := by
    rw [fetchWithRetry]
    exact fetchWithRetryGo_ok script sig RETRY_DELAYS_MS 0 st.consecutiveFailures v h0 hok
  simp only [YouTrackClient.refresh]
  rw [hr]

/-- A freshly `set` key hits as long as `now₂` is not past the expiry
`now + ttl`. -/
theorem ttlget_after_set (now now₂ t v : Nat) (store : Store) (k : String)
    (h : ¬ now₂ > now + t) :
    TTLCache.get now₂ (TTLCache.set now store k v t) k =
      (some v, TTLCache.set now store k v t) := by
  rw [TTLCache.get, TTLCache.set, storeFind_storeSet_self]
  simp [h]

/-- C6: with a TTL supplied, a `get` that misses the cache makes one
network request and stores the result; a second `get` with the same
path, params and TTL before expiry returns that value with zero
network attempts — one request for the two calls, whatever the second
call's network would have answered.  With the TTL omitted, `get`
leaves the cache untouched, its result and attempt count do not depend
on the cache contents at all, and (unless the signal is already
aborted) it always goes to the network. -/
theorem fetchJSON_cache_semantics (apiBase path : String)
    (params : Option (List (String × ParamValue))) (t v now now₂ : Nat)
    (script script₂ : Nat → Except JsErr Nat) (sig₂ : Nat → Bool)
    (st : ClientState) (cache₁ : Store)
    (hmiss : TTLCache.get now st.cache (buildUrl apiBase path params) = (none, cache₁))
    (hok : script 0 = .ok v) (hfresh : ¬ now₂ > now + t) :
    (YouTrackClient.get apiBase path params (some t) script (fun _ => false) now st).result =
      .ok v ∧
    (YouTrackClient.get apiBase path params (some t) script (fun _ => false) now st).attempts
      = 1 ∧
    (YouTrackClient.get apiBase path params (some t) script₂ sig₂ now₂
      (YouTrackClient.get apiBase path params (some t) script (fun _ => false) now
        st).state).result = .ok v ∧
    (YouTrackClient.get apiBase path params (some t) script₂ sig₂ now₂
      (YouTrackClient.get apiBase path params (some t) script (fun _ => false) now
        st).state).attempts = 0 ∧
    (∀ (cache₀ cache₀' : Store) (cf : Nat) (scr : Nat → Except JsErr Nat) (sg : Nat → Bool),
      (YouTrackClient.get apiBase path params none scr sg now ⟨cache₀, cf⟩).state.cache =
        cache₀ ∧
      (YouTrackClient.get apiBase path params none scr sg now ⟨cache₀, cf⟩).result =
        (YouTrackClient.get apiBase path params none scr sg now ⟨cache₀', cf⟩).result ∧
      (YouTrackClient.get apiBase path params none scr sg now ⟨cache₀, cf⟩).attempts =
        (YouTrackClient.get apiBase path params none scr sg now ⟨cache₀', cf⟩).attempts ∧
      (sg 0 = false →
        1 ≤ (YouTrackClient.get apiBase path params none scr sg now ⟨cache₀, cf⟩).attempts)) := by
  have h1 := get_miss_ok apiBase path params t v script (fun _ => false) now st cache₁
    hmiss hok rfl
  have hhit := ttlget_after_set now now₂ t v cache₁ (buildUrl apiBase path params) hfresh
  have h2 := get_hit apiBase path params t script₂ sig₂ now₂
    ⟨TTLCache.set now cache₁ (buildUrl apiBase path params) v t, 0⟩ v
    (TTLCache.set now cache₁ (buildUrl apiBase path params) v t) hhit
  refine ⟨by rw [h1], by rw [h1], by rw [h1]; rw [h2], by rw [h1]; rw [h2], ?_⟩
  intro cache₀ cache₀' cf scr sg
  exact ⟨rfl, rfl, rfl, fun hsg => fetchWithRetry_attempts_pos scr sg cf hsg⟩

/-- Concrete instance of `fetchJSON_cache_semantics`: a cold cache, a
network answering 42 — the first call fetches once, the second call is
served from cache with zero attempts. -/
theorem fetchJSON_cache_semantics_witness :
    (YouTrackClient.get "https://x/api" "/p" none (some 1000) (fun _ => .ok 42)
      (fun _ => false) 0 ⟨[], 0⟩).attempts = 1 ∧
    (YouTrackClient.get "https://x/api" "/p" none (some 1000) (fun _ => .error (.other "no"))
      (fun _ => false) 500
      (YouTrackClient.get "https://x/api" "/p" none (some 1000) (fun _ => .ok 42)
        (fun _ => false) 0 ⟨[], 0⟩).state).result = .ok 42 := by
  have h := fetchJSON_cache_semantics "https://x/api" "/p" none 1000 42 0 500
    (fun _ => .ok 42) (fun _ => .error (.other "no")) (fun _ => false) ⟨[], 0⟩ []
    (by decide) rfl (by decide)
  exact ⟨h.2.1, h.2.2.1⟩

/-- C8: `refresh` with a supplied TTL always makes a network request —
whatever the current cache state, including a valid unexpired entry for
the same key — and on success overwrites the entry, so a subsequent
`get` with the same path, params and TTL returns the refreshed value
with zero further network attempts. -/
theorem refresh_then_get_round_trip (apiBase path : String)
    (params : Option (List (String × ParamValue))) (t w now now₂ : Nat)
    (script script₂ : Nat → Except JsErr Nat) (sig₂ : Nat → Bool) (st : ClientState)
    (hok : script 0 = .ok w) (hfresh : ¬ now₂ > now + t) :
    (YouTrackClient.refresh apiBase path params (some t) script (fun _ => false) now
      st).attempts = 1 ∧
    (YouTrackClient.refresh apiBase path params (some t) script (fun _ => false) now
      st).result = .ok w ∧
    (YouTrackClient.get apiBase path params (some t) script₂ sig₂ now₂
      (YouTrackClient.refresh apiBase path params (some t) script (fun _ => false) now
        st).state).result = .ok w ∧
    (YouTrackClient.get apiBase path params (some t) script₂ sig₂ now₂
      (YouTrackClient.refresh apiBase path params (some t) script (fun _ => false) now
        st).state).attempts = 0 := by
  have h1 := refresh_ok apiBase path params t w script (fun _ => false) now st hok rfl
  have hhit := ttlget_after_set now now₂ t w st.cache (buildUrl apiBase path params) hfresh
  have h2 := get_hit apiBase path params t script₂ sig₂ now₂
    ⟨TTLCache.set now st.cache (buildUrl apiBase path params) w t, 0⟩ w
    (TTLCache.set now st.cache (buildUrl apiBase path params) w t) hhit
  exact ⟨by rw [h1], by rw [h1], by rw [h1]; rw [h2], by rw [h1]; rw [h2]⟩

/-- Concrete instance of `refresh_then_get_round_trip`: the cache holds
a valid entry with value 1 under the very key being refreshed; refresh
still fetches (one attempt), overwrites it with 2, and the following
`get` returns 2 from cache. -/
theorem refresh_then_get_round_trip_witness :
    (YouTrackClient.refresh "https://x/api" "/p" none (some 1000) (fun _ => .ok 2)
      (fun _ => false) 100 ⟨[("https://x/api/p", 1, 900)], 0⟩).attempts = 1 ∧
    (YouTrackClient.get "https://x/api" "/p" none (some 1000) (fun _ => .error (.other "no"))
      (fun _ => false) 200
      (YouTrackClient.refresh "https://x/api" "/p" none (some 1000) (fun _ => .ok 2)
        (fun _ => false) 100 ⟨[("https://x/api/p", 1, 900)], 0⟩).state).result = .ok 2 := by
  have h := refresh_then_get_round_trip "https://x/api" "/p" none 1000 2 100 200
    (fun _ => .ok 2) (fun _ => .error (.other "no")) (fun _ => false)
    ⟨[("https://x/api/p", 1, 900)], 0⟩ rfl (by decide)
  exact ⟨h.1, h.2.2.1⟩

-- ════════════════════════════════════════════════════════════════════
-- §11  Retry policy (C5)
-- ════════════════════════════════════════════════════════════════════

theorem fetchWithRetryGo_attempts_upper (script : Nat → Except JsErr Nat) (sig : Nat → Bool)
    (delays : List Nat) (attempt c : Nat) :
    (fetchWithRetryGo script sig delays attempt c).attempts ≤ attempt + delays.length + 1 := by
  induction delays generalizing attempt with
  | nil =>
    cases h0 : sig (2 * attempt) with
    | true =>
      rw [fetchWithRetryGo_cancel script sig [] attempt c h0]
      simp
    | false =>
      cases hs : script attempt with
      | ok v =>
        rw [fetchWithRetryGo_ok script sig [] attempt c v h0 hs]
        simp
      | error e₀ =>
        rw [fetchWithRetryGo_final script sig [] attempt c e₀ h0 hs (Or.inl rfl)]
        simp [finalFailure]
  | cons d rest ih =>
    cases h0 : sig (2 * attempt) with
    | true =>
      rw [fetchWithRetryGo_cancel script sig (d :: rest) attempt c h0]
      simp
      omega
    | false =>
      cases hs : script attempt with
      | ok v =>
        rw [fetchWithRetryGo_ok script sig (d :: rest) attempt c v h0 hs]
        simp
        try omega
      | error e₀ =>
        by_cases ht : e₀.isTransientYt = true
        · by_cases h1 : sig (2 * attempt + 1) = true
          · rw [fetchWithRetryGo_final script sig (d :: rest) attempt c e₀ h0 hs
              (Or.inr (Or.inr h1))]
            simp [finalFailure]
            try omega
          · have h1f : sig (2 * attempt + 1) = false := by simpa using h1
            rw [fetchWithRetryGo_retry script sig d rest attempt c e₀ h0 hs ht h1f]
            have := ih (attempt + 1)
            simp at this ⊢
            omega
        · have htf : e₀.isTransientYt = false := by simpa using ht
          rw [fetchWithRetryGo_final script sig (d :: rest) attempt c e₀ h0 hs
            (Or.inr (Or.inl htf))]
          simp [finalFailure]
          try omega

theorem fetchWithRetryGo_sleeps_take (script : Nat → Except JsErr Nat) (sig : Nat → Bool)
    (delays : List Nat) (attempt c : Nat) :
    ∃ n, (fetchWithRetryGo script sig delays attempt c).sleeps = delays.take n := by
  induction delays generalizing attempt with
  | nil =>
    cases h0 : sig (2 * attempt) with
    | true => exact ⟨0, by rw [fetchWithRetryGo_cancel script sig [] attempt c h0]; rfl⟩
    | false =>
      cases hs : script attempt with
      | ok v => exact ⟨0, by rw [fetchWithRetryGo_ok script sig [] attempt c v h0 hs]; rfl⟩
      | error e₀ =>
        exact ⟨0, by
          rw [fetchWithRetryGo_final script sig [] attempt c e₀ h0 hs (Or.inl rfl)]; rfl⟩
  | cons d rest ih =>
    cases h0 : sig (2 * attempt) with
    | true => exact ⟨0, by rw [fetchWithRetryGo_cancel script sig (d :: rest) attempt c h0]; rfl⟩
    | false =>
      cases hs : script attempt with
      | ok v => exact ⟨0, by rw [fetchWithRetryGo_ok script sig (d :: rest) attempt c v h0 hs]; rfl⟩
      | error e₀ =>
        by_cases ht : e₀.isTransientYt = true
        · by_cases h1 : sig (2 * attempt + 1) = true
          · exact ⟨0, by
              rw [fetchWithRetryGo_final script sig (d :: rest) attempt c e₀ h0 hs
                (Or.inr (Or.inr h1))]; rfl⟩
          · have h1f : sig (2 * attempt + 1) = false := by simpa using h1
            obtain ⟨n, hn⟩ := ih (attempt + 1)
            refine ⟨n + 1, ?_⟩
            rw [fetchWithRetryGo_retry script sig d rest attempt c e₀ h0 hs ht h1f]
            simp [hn]
        · have htf : e₀.isTransientYt = false := by simpa using ht
          exact ⟨0, by
            rw [fetchWithRetryGo_final script sig (d :: rest) attempt c e₀ h0 hs
              (Or.inr (Or.inl htf))]; rfl⟩

/-- C5: the retry policy is driven exactly by the transient
classification.  `isTransientStatus` accepts exactly
{408, 425, 429, 500, 502, 503, 504}; timeouts and network errors with
no status are classified transient by `fetchJson`; a non-transient
(semantic) HTTP status makes exactly one network attempt and is thrown
with `retryCount = 0` and a reset counter; a transient status that
fails on every attempt makes exactly 3 attempts (2 retries), is thrown
with `retryCount = 2` and `isTransient = true`, and sleeps the backoff
schedule [500, 1500]; every call makes at most 3 attempts and its
backoff delays are non-decreasing. -/
theorem retry_policy_driven_by_classification (s : Nat) (d m : String) (c : Nat)
    (script : Nat → Except JsErr Nat) (sig : Nat → Bool) :
    (isTransientStatus s = true ↔ s ∈ TRANSIENT_STATUSES) ∧
    fetchJson .timeoutThrow =
      .error (.yt ⟨"Request timed out after " ++ toString TIMEOUT_MS ++ "ms",
        none, true, 0, none⟩) ∧
    fetchJson (.netThrow m) = .error (.yt ⟨m, none, true, 0, none⟩) ∧
    (isTransientStatus s = false →
      fetchWithRetry (fun _ => fetchJson (.httpError s d)) (fun _ => false) c =
        ⟨.error (.yt ⟨d, some s, false, 0, none⟩), 1, 0, [], []⟩) ∧
    (isTransientStatus s = true →
      (fetchWithRetry (fun _ => fetchJson (.httpError s d)) (fun _ => false) c).result =
          .error (.yt ⟨d, some s, true, 2, none⟩) ∧
      (fetchWithRetry (fun _ => fetchJson (.httpError s d)) (fun _ => false) c).attempts = 3 ∧
      (fetchWithRetry (fun _ => fetchJson (.httpError s d)) (fun _ => false) c).counter
        = c + 1 ∧
      (fetchWithRetry (fun _ => fetchJson (.httpError s d)) (fun _ => false) c).sleeps =
        [500, 1500]) ∧
    (fetchWithRetry script sig c).attempts ≤ 3 ∧
    List.Chain' (fun a b => a ≤ b) (fetchWithRetry script sig c).sleeps := by
  refine ⟨?_, rfl, rfl, ?_, ?_, ?_, ?_⟩
  · simp [isTransientStatus]
  · intro hsem
    rw [fetchWithRetry]
    rw [fetchWithRetryGo_final _ _ RETRY_DELAYS_MS 0 c (.yt ⟨d, some s, false, 0, none⟩)
      rfl (by simp [fetchJson, hsem]) (Or.inr (Or.inl (by simp [JsErr.isTransientYt])))]
    simp [finalFailure, rethrowWithRetryCount, recordFailure, JsErr.isTransientYt]
  · intro htr
    rw [fetchWithRetry, RETRY_DELAYS_MS]
    rw [fetchWithRetryGo_retry _ _ 500 [1500] 0 c (.yt ⟨d, some s, true, 0, none⟩)
      rfl (by simp [fetchJson, htr]) rfl rfl]
    rw [fetchWithRetryGo_retry _ _ 1500 [] 1 c (.yt ⟨d, some s, true, 0, none⟩)
      rfl (by simp [fetchJson, htr]) rfl rfl]
    rw [fetchWithRetryGo_final _ _ [] 2 c (.yt ⟨d, some s, true, 0, none⟩)
      rfl (by simp [fetchJson, htr]) (Or.inl rfl)]
    rw [finalFailure, recordFailure_transient c (.yt ⟨d, some s, true, 0, none⟩) rfl]
    exact ⟨by simp [rethrowWithRetryCount], rfl, rfl, rfl⟩
  · have h := fetchWithRetryGo_attempts_upper script sig RETRY_DELAYS_MS 0 c
    rw [fetchWithRetry]
    simpa [RETRY_DELAYS_MS] using h
  · obtain ⟨n, hn⟩ := fetchWithRetryGo_sleeps_take script sig RETRY_DELAYS_MS 0 c
    rw [fetchWithRetry, hn, RETRY_DELAYS_MS]
    rcases n with _ | _ | n <;> simp

/-- Concrete instance of `retry_policy_driven_by_classification`: a 404
is thrown after a single attempt with `retryCount = 0`; a 503 exhausts
all three attempts. -/
theorem retry_policy_driven_by_classification_witness :
    fetchWithRetry (fun _ => fetchJson (.httpError 404 "nf")) (fun _ => false) 0 =
      ⟨.error (.yt ⟨"nf", some 404, false, 0, none⟩), 1, 0, [], []⟩ ∧
    (fetchWithRetry (fun _ => fetchJson (.httpError 503 "sa")) (fun _ => false) 0).attempts
      = 3 := by
  have h404 := (retry_policy_driven_by_classification 404 "nf" "m" 0 (fun _ => .ok 1)
    (fun _ => false)).2.2.2.1 (by decide)
  have h503 := ((retry_policy_driven_by_classification 503 "sa" "m" 0 (fun _ => .ok 1)
    (fun _ => false)).2.2.2.2.1 (by decide)).2.1
  exact ⟨h404, h503⟩

-- ════════════════════════════════════════════════════════════════════
-- §12  Cache key construction (C2)
-- ════════════════════════════════════════════════════════════════════

theorem charToNat_ofNat (n : Nat) (h : n < 0xd800) : (Char.ofNat n).toNat = n := by
  have hv : Nat.isValidChar n := Or.inl h
  rw [Char.ofNat, dif_pos hv]
  rfl

theorem charToNat_injective (a b : Char) (h : a.toNat = b.toNat) : a = b := by
  have hv : a.val.toNat = b.val.toNat := h
  exact Char.eq_of_val_eq (UInt32.toNat.inj hv)

theorem hexVal_hexDigit (n : Nat) (h : n < 16) : hexVal (hexDigit n) = n := by
  interval_cases n <;> decide

theorem isUnreservedByte_lt (b : Nat) (h : isUnreservedByte b = true) : b < 128 := by
  simp only [isUnreservedByte, Bool.or_eq_true, Bool.and_eq_true, decide_eq_true_eq] at h
  omega

theorem decodeBytes_percent (h l : Char) (rest : List Char) :
    decodeBytes ('%' :: h :: l :: rest) =
      (decodeBytes rest).map (fun bs => (hexVal h * 16 + hexVal l) :: bs) := by
  rw [decodeBytes]
  rw [if_pos rfl]

theorem decodeBytes_cons (c : Char) (l : List Char) (hne1 : ¬ (c = '%')) :
    decodeBytes (c :: l) =
      (if c = '+' then (decodeBytes l).map (fun bs => 0x20 :: bs)
       else (decodeBytes l).map (fun bs => c.toNat :: bs)) := by
  rcases l with _ | ⟨h, _ | ⟨l₁, rest⟩⟩ <;> simp [decodeBytes, hne1]

theorem decode_encode (bs : List Nat) (h : ∀ b ∈ bs, b < 128) :
    decodeBytes (bs.flatMap encodeByte) = some bs := by
  induction bs with
  | nil => rfl
  | cons b rest ih =>
    have hb : b < 128 := h b (by simp)
    have hrest := ih (fun x hx => h x (by simp [hx]))
    rw [List.flatMap_cons]
    by_cases hu : isUnreservedByte b = true
    · have hbv := charToNat_ofNat b (by omega)
      have hne1 : ¬ (Char.ofNat b = '%') := by
        intro hc
        have hb37 : b = 37 := by rw [← hbv, hc]; rfl
        rw [hb37] at hu
        exact absurd hu (by decide)
      have hne2 : ¬ (Char.ofNat b = '+') := by
        intro hc
        have hb43 : b = 43 := by rw [← hbv, hc]; rfl
        rw [hb43] at hu
        exact absurd hu (by decide)
      rw [encodeByte, if_pos hu, List.singleton_append, decodeBytes_cons _ _ hne1,
        if_neg hne2, hrest]
      simp [hbv]
    · by_cases hsp : b = 0x20
      · rw [encodeByte, if_neg hu, if_pos hsp, List.singleton_append,
          decodeBytes_cons _ _ (by decide), if_pos rfl, hrest]
        simp [hsp]
      · rw [encodeByte, if_neg hu, if_neg hsp]
        simp only [List.cons_append, List.nil_append]
        rw [decodeBytes_percent, hrest]
        have h1 : b / 16 % 16 = b / 16 := Nat.mod_eq_of_lt (by omega)
        rw [h1, hexVal_hexDigit _ (by omega), hexVal_hexDigit _ (by omega)]
        simp [show b / 16 * 16 + b % 16 = b from by omega]

theorem hexDigit_ne_sep (n : Nat) (h : n < 16) :
    ¬ (hexDigit n = '&') ∧ ¬ (hexDigit n = '=') := by
  interval_cases n <;> exact ⟨by decide, by decide⟩

theorem mem_encodeByte_ne_sep (b : Nat) (ch : Char) (h : ch ∈ encodeByte b) :
    ¬ (ch = '&') ∧ ¬ (ch = '=') := by
  rw [encodeByte] at h
  by_cases hu : isUnreservedByte b = true
  · rw [if_pos hu] at h
    have hb : b < 128 := isUnreservedByte_lt b hu
    have hbv := charToNat_ofNat b (by omega)
    rcases List.mem_singleton.mp h with rfl
    constructor
    · intro hc
      have hb38 : b = 38 := by rw [← hbv, hc]; rfl
      rw [hb38] at hu
      exact absurd hu (by decide)
    · intro hc
      have hb61 : b = 61 := by rw [← hbv, hc]; rfl
      rw [hb61] at hu
      exact absurd hu (by decide)
  · rw [if_neg hu] at h
    by_cases hsp : b = 0x20
    · rw [if_pos hsp] at h
      rcases List.mem_singleton.mp h with rfl
      exact ⟨by decide, by decide⟩
    · rw [if_neg hsp] at h
      simp only [List.mem_cons, List.not_mem_nil, or_false] at h
      rcases h with rfl | rfl | rfl
      · exact ⟨by decide, by decide⟩
      · exact hexDigit_ne_sep _ (Nat.mod_lt _ (by omega))
      · exact hexDigit_ne_sep _ (Nat.mod_lt _ (by omega))

theorem utf8Bytes_ascii (c : Char) (h : c.toNat < 128) : utf8Bytes c = [c.toNat] := by
  rw [utf8Bytes]
  simp [h]

theorem flatMap_utf8_ascii (l : List Char) (h : ∀ c ∈ l, c.toNat < 128) :
    l.flatMap utf8Bytes = l.map Char.toNat := by
  induction l with
  | nil => rfl
  | cons c rest ih =>
    rw [List.flatMap_cons, List.map_cons, utf8Bytes_ascii c (h c (by simp)),
      ih (fun x hx => h x (by simp [hx]))]
    rfl

theorem formEncode_data (s : String) (h : asciiStr s) :
    (formEncode s).data = (s.data.map Char.toNat).flatMap encodeByte := by
  rw [formEncode]
  rw [flatMap_utf8_ascii s.data h]

theorem map_toNat_inj (l₁ l₂ : List Char) (h : l₁.map Char.toNat = l₂.map Char.toNat) :
    l₁ = l₂ := by
  induction l₁ generalizing l₂ with
  | nil => cases l₂ with
    | nil => rfl
    | cons y ys => simp at h
  | cons x xs ih =>
    cases l₂ with
    | nil => simp at h
    | cons y ys =>
      simp only [List.map_cons, List.cons.injEq] at h
      rw [charToNat_injective x y h.1, ih ys h.2]

theorem formEncode_inj (s t : String) (hs : asciiStr s) (ht : asciiStr t)
    (h : formEncode s = formEncode t) : s = t := by
  have hd : (formEncode s).data = (formEncode t).data := by rw [h]
  rw [formEncode_data s hs, formEncode_data t ht] at hd
  have hds := decode_encode (s.data.map Char.toNat) (by
    intro b hb
    obtain ⟨c, hc, rfl⟩ := List.mem_map.mp hb
    exact hs c hc)
  have hdt := decode_encode (t.data.map Char.toNat) (by
    intro b hb
    obtain ⟨c, hc, rfl⟩ := List.mem_map.mp hb
    exact ht c hc)
  rw [hd, hdt] at hds
  have hdata : s.data = t.data := map_toNat_inj _ _ (Option.some.inj hds).symm
  cases s with
  | mk d₁ =>
    cases t with
    | mk d₂ => exact congrArg String.mk hdata

theorem mem_formEncode_ne_sep (s : String) (ch : Char) (h : ch ∈ (formEncode s).data) :
    ¬ (ch = '&') ∧ ¬ (ch = '=') := by
  rw [formEncode] at h
  obtain ⟨b, _, hb⟩ := List.mem_flatMap.mp h
  exact mem_encodeByte_ne_sep b ch hb

theorem serializePair_data (p : String × String) :
    (serializePair p).data = (formEncode p.1).data ++ '=' :: (formEncode p.2).data := by
  rw [serializePair]
  rw [String.data_append, String.data_append, List.append_assoc]
  rfl

/-- Splitting at a separator character that occurs in neither prefix is
unambiguous. -/
theorem append_sep_inj (sep : Char) (a b c d : List Char)
    (ha : ∀ ch ∈ a, ¬ (ch = sep)) (hc : ∀ ch ∈ c, ¬ (ch = sep))
    (h : a ++ sep :: b = c ++ sep :: d) : a = c ∧ b = d := by
  induction a generalizing c with
  | nil =>
    cases c with
    | nil => simpa using h
    | cons y cs =>
      simp only [List.nil_append, List.cons_append, List.cons.injEq] at h
      exact absurd h.1.symm (hc y (by simp))
  | cons x as ih =>
    cases c with
    | nil =>
      simp only [List.nil_append, List.cons_append, List.cons.injEq] at h
      exact absurd h.1 (ha x (by simp))
    | cons y cs =>
      simp only [List.cons_append, List.cons.injEq] at h
      obtain ⟨rfl, h2⟩ := h
      obtain ⟨h3, h4⟩ := ih cs (fun ch hch => ha ch (by simp [hch]))
        (fun ch hch => hc ch (by simp [hch])) h2
      exact ⟨by rw [h3], h4⟩

theorem string_data_inj (s t : String) (h : s.data = t.data) : s = t := by
  cases s with
  | mk d₁ =>
    cases t with
    | mk d₂ => exact congrArg String.mk h

theorem serializePair_inj (p q : String × String)
    (hp1 : asciiStr p.1) (hp2 : asciiStr p.2) (hq1 : asciiStr q.1) (hq2 : asciiStr q.2)
    (h : serializePair p = serializePair q) : p = q := by
  have hd : (serializePair p).data = (serializePair q).data := by rw [h]
  rw [serializePair_data, serializePair_data] at hd
  obtain ⟨h1, h2⟩ := append_sep_inj '=' _ _ _ _
    (fun ch hch => (mem_formEncode_ne_sep p.1 ch hch).2)
    (fun ch hch => (mem_formEncode_ne_sep q.1 ch hch).2) hd
  have hk := formEncode_inj p.1 q.1 hp1 hq1 (string_data_inj _ _ h1)
  have hv := formEncode_inj p.2 q.2 hp2 hq2 (string_data_inj _ _ h2)
  exact Prod.ext hk hv

theorem serializeQuery_cons₂ (p q : String × String) (ps : List (String × String)) :
    serializeQuery (p :: q :: ps) = serializePair p ++ "&" ++ serializeQuery (q :: ps) := rfl

theorem serializeQuery_cons₂_data (p q : String × String) (ps : List (String × String)) :
    (serializeQuery (p :: q :: ps)).data =
      (serializePair p).data ++ '&' :: (serializeQuery (q :: ps)).data := by
  rw [serializeQuery_cons₂, String.data_append, String.data_append, List.append_assoc]
  rfl

theorem mem_serializePair_ne_amp (p : String × String) (ch : Char)
    (h : ch ∈ (serializePair p).data) : ¬ (ch = '&') := by
  rw [serializePair_data] at h
  rcases List.mem_append.mp h with h | h
  · exact (mem_formEncode_ne_sep p.1 ch h).1
  · rcases List.mem_cons.mp h with rfl | h
    · decide
    · exact (mem_formEncode_ne_sep p.2 ch h).1

theorem eq_mem_serializePair (p : String × String) : '=' ∈ (serializePair p).data := by
  rw [serializePair_data]
  exact List.mem_append.mpr (Or.inr (by simp))

theorem eq_mem_serializeQuery (q : String × String) (qs : List (String × String)) :
    '=' ∈ (serializeQuery (q :: qs)).data := by
  cases qs with
  | nil => exact eq_mem_serializePair q
  | cons q₂ rest =>
    rw [serializeQuery_cons₂_data]
    exact List.mem_append.mpr (Or.inl (eq_mem_serializePair q))

theorem serializeQuery_inj (ps qs : List (String × String))
    (hps : ∀ p ∈ ps, asciiStr p.1 ∧ asciiStr p.2)
    (hqs : ∀ p ∈ qs, asciiStr p.1 ∧ asciiStr p.2)
    (h : serializeQuery ps = serializeQuery qs) : ps = qs := by
  induction ps generalizing qs with
  | nil =>
    cases qs with
    | nil => rfl
    | cons q qs₂ =>
      exfalso
      have hm := eq_mem_serializeQuery q qs₂
      rw [← h] at hm
      simp [serializeQuery] at hm
  | cons p ps₂ ih =>
    cases qs with
    | nil =>
      exfalso
      have hm := eq_mem_serializeQuery p ps₂
      rw [h] at hm
      simp [serializeQuery] at hm
    | cons q qs₂ =>
      cases ps₂ with
      | nil =>
        cases qs₂ with
        | nil =>
          have hp := hps p (by simp)
          have hq := hqs q (by simp)
          have : serializePair p = serializePair q := h
          rw [serializePair_inj p q hp.1 hp.2 hq.1 hq.2 this]
        | cons q₂ rest =>
          exfalso
          have hm : '&' ∈ (serializePair p).data := by
            have hd : (serializePair p).data = (serializeQuery (q :: q₂ :: rest)).data := by
              rw [← h]
              rfl
            rw [hd, serializeQuery_cons₂_data]
            exact List.mem_append.mpr (Or.inr (by simp))
          exact mem_serializePair_ne_amp p '&' hm rfl
      | cons p₂ rest =>
        cases qs₂ with
        | nil =>
          exfalso
          have hm : '&' ∈ (serializePair q).data := by
            have hd : (serializePair q).data = (serializeQuery (p :: p₂ :: rest)).data := by
              rw [h]
              rfl
            rw [hd, serializeQuery_cons₂_data]
            exact List.mem_append.mpr (Or.inr (by simp))
          exact mem_serializePair_ne_amp q '&' hm rfl
        | cons q₂ rest₂ =>
          have hd : (serializeQuery (p :: p₂ :: rest)).data =
              (serializeQuery (q :: q₂ :: rest₂)).data := by rw [h]
          rw [serializeQuery_cons₂_data, serializeQuery_cons₂_data] at hd
          obtain ⟨h1, h2⟩ := append_sep_inj '&' _ _ _ _
            (mem_serializePair_ne_amp p) (mem_serializePair_ne_amp q) hd
          have hp := hps p (by simp)
          have hq := hqs q (by simp)
          have hpq := serializePair_inj p q hp.1 hp.2 hq.1 hq.2 (string_data_inj _ _ h1)
          have htail := ih (q₂ :: rest₂) (fun x hx => hps x (by simp [hx]))
            (fun x hx => hqs x (by simp [hx])) (string_data_inj _ _ h2)
          rw [hpq, htail]

theorem searchParamsSet_fresh (acc : List (String × String)) (k v : String)
    (h : ∀ p ∈ acc, ¬ (p.1 = k)) : searchParamsSet acc k v = acc ++ [(k, v)] := by
  induction acc with
  | nil => rfl
  | cons p rest ih =>
    cases p with
    | mk k₁ v₁ =>
      rw [searchParamsSet, if_neg (h (k₁, v₁) (by simp))]
      rw [ih (fun x hx => h x (by simp [hx]))]
      rfl

/-- With pairwise-distinct keys (always the case for `Object.entries` of
a `Record`), the `searchParams.set` loop of `buildUrl` appends each
coerced pair in enumeration order. -/
theorem buildUrl_qs (ps : List (String × ParamValue)) (acc : List (String × String))
    (hnd : (ps.map Prod.fst).Nodup)
    (hdisj : ∀ p ∈ acc, ∀ q ∈ ps, ¬ (p.1 = q.1)) :
    ps.foldl (fun acc p => searchParamsSet acc p.1 p.2.toJs) acc =
      acc ++ ps.map (fun p => (p.1, p.2.toJs)) := by
  induction ps generalizing acc with
  | nil => simp
  | cons q rest ih =>
    rw [List.foldl_cons]
    rw [searchParamsSet_fresh acc q.1 q.2.toJs (fun p hp => hdisj p hp q (by simp))]
    rw [List.map_cons] at hnd
    have hnd₂ := (List.nodup_cons.mp hnd).2
    have hqmem := (List.nodup_cons.mp hnd).1
    rw [ih (acc ++ [(q.1, q.2.toJs)]) hnd₂ ?hdisj₂]
    · simp
    case hdisj₂ =>
      intro p hp r hr
      rcases List.mem_append.mp hp with hp | hp
      · exact hdisj p hp r (by simp [hr])
      · rcases List.mem_singleton.mp hp with rfl
        intro hc
        exact hqmem (hc ▸ List.mem_map.mpr ⟨r, hr, rfl⟩)

theorem string_append_left_cancel (x a b : String) (h : x ++ a = x ++ b) : a = b := by
  have hd := congrArg String.data h
  rw [String.data_append, String.data_append] at hd
  exact string_data_inj a b (List.append_cancel_left hd)

theorem buildUrl_eq_iff (apiBase path : String) (ps₁ ps₂ : List (String × ParamValue))
    (hnd₁ : (ps₁.map Prod.fst).Nodup) (hnd₂ : (ps₂.map Prod.fst).Nodup)
    (ha₁ : ∀ p ∈ ps₁, asciiStr p.1 ∧ asciiStr p.2.toJs)
    (ha₂ : ∀ p ∈ ps₂, asciiStr p.1 ∧ asciiStr p.2.toJs) :
    buildUrl apiBase path (some ps₁) = buildUrl apiBase path (some ps₂) ↔
      ps₁.map (fun p => (p.1, p.2.toJs)) = ps₂.map (fun p => (p.1, p.2.toJs)) := by
  have hb₁ : buildUrl apiBase path (some ps₁) = apiBase ++ path ++
      (if (ps₁.map (fun p => (p.1, p.2.toJs))).isEmpty then ""
       else "?" ++ serializeQuery (ps₁.map (fun p => (p.1, p.2.toJs)))) := by
    rw [buildUrl]
    rw [buildUrl_qs ps₁ [] hnd₁ (by simp)]
    rfl
  have hb₂ : buildUrl apiBase path (some ps₂) = apiBase ++ path ++
      (if (ps₂.map (fun p => (p.1, p.2.toJs))).isEmpty then ""
       else "?" ++ serializeQuery (ps₂.map (fun p => (p.1, p.2.toJs)))) := by
    rw [buildUrl]
    rw [buildUrl_qs ps₂ [] hnd₂ (by simp)]
    rfl
  have hA₁ : ∀ p ∈ ps₁.map (fun p => (p.1, p.2.toJs)), asciiStr p.1 ∧ asciiStr p.2 := by
    intro p hp
    obtain ⟨x, hx, rfl⟩ := List.mem_map.mp hp
    exact ha₁ x hx
  have hA₂ : ∀ p ∈ ps₂.map (fun p => (p.1, p.2.toJs)), asciiStr p.1 ∧ asciiStr p.2 := by
    intro p hp
    obtain ⟨x, hx, rfl⟩ := List.mem_map.mp hp
    exact ha₂ x hx
  constructor
  · intro h
    rw [hb₁, hb₂] at h
    have hsuf := string_append_left_cancel _ _ _ h
    by_cases he₁ : (ps₁.map (fun p => (p.1, p.2.toJs))) = []
    · by_cases he₂ : (ps₂.map (fun p => (p.1, p.2.toJs))) = []
      · rw [he₁, he₂]
      · exfalso
        rw [if_pos (by rw [he₁]; rfl), if_neg (fun hc => he₂ (List.isEmpty_iff.mp hc))]
          at hsuf
        have hlen := congrArg String.length hsuf
        rw [String.length_append] at hlen
        rw [show ("" : String).length = 0 from rfl,
          show ("?" : String).length = 1 from rfl] at hlen
        omega
    · by_cases he₂ : (ps₂.map (fun p => (p.1, p.2.toJs))) = []
      · exfalso
        rw [if_neg (fun hc => he₁ (List.isEmpty_iff.mp hc)), if_pos (by rw [he₂]; rfl)]
          at hsuf
        have hlen := congrArg String.length hsuf
        rw [String.length_append] at hlen
        rw [show ("" : String).length = 0 from rfl,
          show ("?" : String).length = 1 from rfl] at hlen
        omega
      · rw [if_neg (fun hc => he₁ (List.isEmpty_iff.mp hc)),
          if_neg (fun hc => he₂ (List.isEmpty_iff.mp hc))] at hsuf
        exact serializeQuery_inj _ _ hA₁ hA₂ (string_append_left_cancel "?" _ _ hsuf)
  · intro h
    rw [hb₁, hb₂, h]

/-- C2 counterexample: `buildUrl` does not sort parameters and coerces
values with JavaScript `String()`.  Two parameter maps holding the same
key/value pairs in different enumeration orders (a permutation) produce
different cache keys, and two maps differing in a parameter value
(number `1` vs string `"1"`) produce the same key. -/
theorem cache_key_not_canonical :
    ([("a", ParamValue.str "1"), ("b", ParamValue.str "2")] :
        List (String × ParamValue)).Perm
      [("b", ParamValue.str "2"), ("a", ParamValue.str "1")] ∧
    ¬ (buildUrl "https://example.com/api" "/x"
        (some [("a", ParamValue.str "1"), ("b", ParamValue.str "2")]) =
       buildUrl "https://example.com/api" "/x"
        (some [("b", ParamValue.str "2"), ("a", ParamValue.str "1")])) ∧
    ¬ (ParamValue.num 1 = ParamValue.str "1") ∧
    buildUrl "https://example.com/api" "/x" (some [("a", ParamValue.num 1)]) =
      buildUrl "https://example.com/api" "/x" (some [("a", ParamValue.str "1")]) := by
  decide

/-- C2 amended: the cache key is a deterministic function of the path
and the parameter entries in enumeration order.  For a fixed path and
parameter lists with pairwise-distinct keys and ASCII content (the only
kind this repository produces), two lists map to the same key exactly
when they have the same keys in the same order with values that coerce
to the same strings under JavaScript `String()`.  In particular a list
differing in any coerced parameter value maps to a different key, while
reorderings of the same pairs and type-only value changes (1 vs "1")
are not distinguished.  `refresh` writes the fetched value under
exactly this `buildUrl` key — the key `get` consults. -/
theorem cache_key_deterministic (apiBase path : String)
    (ps₁ ps₂ : List (String × ParamValue))
    (hnd₁ : (ps₁.map Prod.fst).Nodup) (hnd₂ : (ps₂.map Prod.fst).Nodup)
    (ha₁ : ∀ p ∈ ps₁, asciiStr p.1 ∧ asciiStr p.2.toJs)
    (ha₂ : ∀ p ∈ ps₂, asciiStr p.1 ∧ asciiStr p.2.toJs) :
    (buildUrl apiBase path (some ps₁) = buildUrl apiBase path (some ps₂) ↔
      ps₁.map (fun p => (p.1, p.2.toJs)) = ps₂.map (fun p => (p.1, p.2.toJs))) ∧
    (∀ (t v now : Nat) (script : Nat → Except JsErr Nat) (st : ClientState),
      script 0 = .ok v →
      (YouTrackClient.refresh apiBase path (some ps₁) (some t) script (fun _ => false)
        now st).state.cache =
        TTLCache.set now st.cache (buildUrl apiBase path (some ps₁)) v t) := by
  refine ⟨buildUrl_eq_iff apiBase path ps₁ ps₂ hnd₁ hnd₂ ha₁ ha₂, ?_⟩
  intro t v now script st hok
  rw [refresh_ok apiBase path (some ps₁) t v script (fun _ => false) now st hok rfl]

/-- Concrete instance of `cache_key_deterministic`: with a fixed path,
`1` and `"1"` coerce equally and give the same key, while `"1"` and
`"2"` differ and give different keys. -/
theorem cache_key_deterministic_witness :
    buildUrl "https://x/api" "/p" (some [("a", ParamValue.num 1)]) =
      buildUrl "https://x/api" "/p" (some [("a", ParamValue.str "1")]) ∧
    ¬ (buildUrl "https://x/api" "/p" (some [("a", ParamValue.str "1")]) =
       buildUrl "https://x/api" "/p" (some [("a", ParamValue.str "2")])) := by
  constructor
  · exact (cache_key_deterministic "https://x/api" "/p" [("a", ParamValue.num 1)]
      [("a", ParamValue.str "1")] (by decide) (by decide) (by decide) (by decide)).1.mpr
      (by decide)
  · intro h
    have hmap := (cache_key_deterministic "https://x/api" "/p" [("a", ParamValue.str "1")]
      [("a", ParamValue.str "2")] (by decide) (by decide) (by decide) (by decide)).1.mp h
    exact absurd hmap (by decide)

end YouTrack
